import Mathlib

/-!
Verification development for the static site mirroring pipeline
(clone-site script: HTML + CSS + assets cloner).

The JavaScript source is shallowly embedded: pure helper functions become
Lean functions on `List Char` / `String`; the external collaborators
(WHATWG URL resolution, the cheerio HTML parser, the mime-types database,
the sha1 digest and the network) are modelled as explicit function
parameters bundled in environment records, so every theorem quantifies
over their behaviour.  Fallible operations return `Except`/`Option`.
-/

namespace CloneSite

/-! ## String helpers (explicit List Char implementations, kernel reducible) -/

/-- Character class `[a-zA-Z0-9._-]` used by the `sanitize` helper. -/
def isSafeChar (c : Char) : Bool :=
  c.isAlphanum || c = '.' || c = '_' || c = '-'

/-- ASCII lowercase of a string (models JS `toLowerCase` for ASCII data). -/
def lowerAscii (s : String) : String :=
  ⟨s.data.map Char.toLower⟩

/-- JS `String.prototype.trim`: strips whitespace from both ends. -/
def jsTrim (s : String) : String :=
  ⟨((s.data.dropWhile Char.isWhitespace).reverse.dropWhile Char.isWhitespace).reverse⟩

/-- Prefix test on the underlying character lists. -/
def strStartsWith (s p : String) : Bool :=
  p.data.isPrefixOf s.data

/-- Suffix test on the underlying character lists. -/
def strEndsWith (s p : String) : Bool :=
  p.data.isSuffixOf s.data

/-- Substring occurrence test over character lists. -/
def subOccurs (pat : List Char) : List Char → Bool
  | [] => pat.isEmpty
  | c :: rest => pat.isPrefixOf (c :: rest) || subOccurs pat rest

/-- Models an unanchored regex test for a literal pattern (e.g. `/javascript/`). -/
def containsSub (s pat : String) : Bool :=
  subOccurs pat.data s.data

/-- Characters of `l` strictly after the last occurrence of `c`
(the whole list when `c` does not occur). -/
def afterLast (c : Char) (l : List Char) : List Char :=
  (l.reverse.takeWhile (fun x => x ≠ c)).reverse

/-- Split a character list on a separator character (JS `split(sep)`). -/
def splitOnCharAux (sep : Char) : List Char → List Char → List (List Char)
  | [], acc => [acc.reverse]
  | c :: rest, acc =>
    if c = sep then acc.reverse :: splitOnCharAux sep rest []
    else splitOnCharAux sep rest (c :: acc)

/-- Split a string on a separator character. -/
def splitOnChar (sep : Char) (s : String) : List String :=
  (splitOnCharAux sep s.data []).map (fun l => ⟨l⟩)

/-- First whitespace-delimited token of a string (JS `split(/\s+/)[0]` after trim). -/
def firstToken (s : String) : String :=
  ⟨s.data.takeWhile (fun c => ¬ c.isWhitespace)⟩

/-- Second whitespace-delimited token, if any (JS `split(/\s+/, 2)[1]`). -/
def secondToken (s : String) : Option String :=
  let rest := (s.data.dropWhile (fun c => ¬ c.isWhitespace)).dropWhile Char.isWhitespace
  if rest.isEmpty then none
  else some ⟨rest.takeWhile (fun c => ¬ c.isWhitespace)⟩

/-- Insert a string into a list if not already present
(models `Set.prototype.add`: insertion order preserved, duplicates ignored). -/
def insertIfAbsent (l : List String) (a : String) : List String :=
  if a ∈ l then l else l ++ [a]

/-! ## Association-list model of a JS `Map` with string keys -/

/-- `Map.set`: replaces the value at an existing key in place, else appends. -/
def mapSet : List (String × String) → String → String → List (String × String)
  | [], k, v => [(k, v)]
  | p :: rest, k, v => if p.1 = k then (k, v) :: rest else p :: mapSet rest k v

/-- `Map.get`: first matching key wins (keys are unique by construction of set). -/
def mapLookup (m : List (String × String)) (k : String) : Option String :=
  (m.find? (fun p => p.1 = k)).map (fun p => p.2)

/-! ## URL path helpers

The script relies on the WHATWG `URL` class of the platform; general
resolution stays an environment parameter, but `u.pathname` of an
already-normalized http(s) URL is computed concretely here: the part
after the authority, cut at the query or fragment. -/

/-- Characters after the first occurrence of the pattern, scanning left to right. -/
def afterSub (pat : List Char) : List Char → Option (List Char)
  | [] => if pat.isEmpty then some [] else none
  | c :: rest =>
    if pat.isPrefixOf (c :: rest) then some ((c :: rest).drop pat.length)
    else afterSub pat rest

/-- `new URL(u).pathname` for a normalized absolute http(s) URL string. -/
def urlPathname (u : String) : String :=
  match afterSub "://".data u.data with
  | none => "/"
  | some rest =>
    let afterHost := rest.dropWhile (fun c => c ≠ '/')
    if afterHost.isEmpty then "/"
    else ⟨afterHost.takeWhile (fun c => c ≠ '?' ∧ c ≠ '#')⟩

/-- Node `path.posix.basename`: strip trailing slashes, then the last segment. -/
def pathBasename (p : String) : String :=
  ⟨afterLast '/' ((p.data.reverse.dropWhile (fun c => c = '/')).reverse)⟩

/-- Node `path.extname`: the final `.xxx` of the last segment, where a dot in
first position (hidden file) yields the empty extension. -/
def pathExtname (p : String) : String :=
  let seg := afterLast '/' p.data
  if '.' ∈ seg then
    let after := afterLast '.' seg
    if seg.length - (after.length + 1) = 0 then "" else ⟨'.' :: after⟩
  else ""

/-- The regex replacement `replace(/\.[^.]+$/, '')`: drop a final dot-extension
with at least one non-dot character after the dot. -/
def stripLastExt (s : String) : String :=
  if '.' ∈ s.data then
    let after := afterLast '.' s.data
    if after.isEmpty then s else ⟨s.data.take (s.data.length - (after.length + 1))⟩
  else s

/-! ## Path classifier (source: classifyByExtOrMime, ensureExt, sanitize,
localPathForAsset) -/

/-- External mime-types database interface (`mime-types` package):
`lookup` maps an extension to a mime type, `extension` maps a mime type
to an extension; both return nothing on unknown input. -/
structure MimeDb where
  lookup : String → Option String
  extension : String → Option String

/-- Source `sanitize`: default to "file", replace unsafe characters by an
underscore, truncate to 80 characters, default again if empty. -/
def sanitize (s : String) : String :=
  let base := if s = "" then "file" else s
  let cleaned := (base.data.map (fun c => if isSafeChar c then c else '_')).take 80
  if cleaned.isEmpty then "file" else ⟨cleaned⟩

/-- Source `classifyByExtOrMime`: chooses the asset subfolder from the URL
extension and the (possibly mime-db defaulted) content type. -/
def classifyByExtOrMime (db : MimeDb) (urlStr contentType : String) : String :=
  let ext := lowerAscii (pathExtname (urlPathname urlStr))
  let type := if contentType = "" then (db.lookup ext).getD "" else contentType
  let isJS := ext = ".js" || containsSub type "javascript" || containsSub type "ecmascript"
  let isFont := ext ∈ [".woff", ".woff2", ".ttf", ".otf", ".eot"] ||
    containsSub type "font" || containsSub type "opentype" || containsSub type "woff"
  let isImg := ext ∈ [".png", ".jpg", ".jpeg", ".gif", ".webp", ".svg", ".ico", ".bmp", ".avif"] ||
    containsSub type "image/"
  if isJS then "js" else if isFont then "fonts" else if isImg then "img" else "other"

/-- Source `ensureExt`: extension from the URL path, else from the mime
database, else a coarse content-type-family fallback, else `.bin`. -/
def ensureExt (db : MimeDb) (urlStr contentType : String) : String :=
  let ext := pathExtname (urlPathname urlStr)
  if ext ≠ "" then ext
  else
    match db.extension contentType with
    | some m => "." ++ m
    | none =>
      if containsSub contentType "image/" then ".img"
      else if containsSub contentType "javascript" then ".js"
      else if containsSub contentType "font" || containsSub contentType "woff" ||
        containsSub contentType "opentype" then ".woff"
      else ".bin"

/-- Source `localPathForAsset`: `assets/<folder>/<base>-<hash><ext>`, with the
sha1 digest of the URL supplied by the crypto collaborator `hash`. -/
def localPathForAsset (db : MimeDb) (hash : String → String)
    (remoteUrl contentType : String) : String :=
  let folder := classifyByExtOrMime db remoteUrl contentType
  let base0 := sanitize (stripLastExt (pathBasename (urlPathname remoteUrl)))
  let base := if base0 = "" then "file" else base0
  let ext := ensureExt db remoteUrl contentType
  "assets/" ++ folder ++ "/" ++ (base ++ "-" ++ hash remoteUrl ++ ext)

/-- Spec-side restatement used to compare against `localPathForAsset`: the
filename component as a function of the same pair. -/
def assetFileName (db : MimeDb) (hash : String → String)
    (remoteUrl contentType : String) : String :=
  let base0 := sanitize (stripLastExt (pathBasename (urlPathname remoteUrl)))
  let base := if base0 = "" then "file" else base0
  base ++ "-" ++ hash remoteUrl ++ ensureExt db remoteUrl contentType

/-! ## HTTP layer (source: axiosClient, fetchHTML, fetchText, fetchBinary)

The axios client is configured with `validateStatus: () => true`, so a
delivered response never throws; a network-level failure (timeout, DNS)
still does.  A request is therefore modelled as
`String → Option HttpResp`: `none` is a network-level failure. -/

/-- An HTTP response as observed through the axios client: status code,
body text (also standing in for the binary payload), the redirect-chain
final URL when the transport recorded one, and the content-type header. -/
structure HttpResp where
  status : Nat
  body : String
  responseUrl : Option String
  contentType : String
deriving Repr, DecidableEq

/-- Result of a successful `fetchHTML`. -/
structure FetchedPage where
  html : String
  finalUrl : String
  contentType : String
deriving Repr, DecidableEq

/-- Source `fetchHTML`: GET, reject non-2xx statuses, take the post-redirect
response URL (falling back to the requested URL), reject an empty body. -/
def fetchHTML (http : String → Option HttpResp) (url : String) : Except String FetchedPage :=
  match http url with
  | none => .error ("request failed: " ++ url)
  | some res =>
    if res.status < 200 ∨ 300 ≤ res.status then
      .error ("Non-OK HTTP status for " ++ url)
    else
      let finalUrl := res.responseUrl.getD url
      let html := res.body
      if html = "" then .error ("Empty HTML from " ++ finalUrl)
      else .ok ⟨html, finalUrl, res.contentType⟩

/-- Source `fetchText`: GET, reject non-2xx statuses, return body text with
the final URL and content type (no emptiness check). -/
def fetchText (http : String → Option HttpResp) (url : String) :
    Except String (String × String × String) :=
  match http url with
  | none => .error ("request failed: " ++ url)
  | some res =>
    if res.status < 200 ∨ 300 ≤ res.status then
      .error ("Non-OK HTTP for " ++ url)
    else .ok (res.body, res.responseUrl.getD url, res.contentType)

/-- Source `fetchBinary`: identical shape, body standing in for the buffer. -/
def fetchBinary (http : String → Option HttpResp) (url : String) :
    Except String (String × String × String) :=
  match http url with
  | none => .error ("request failed: " ++ url)
  | some res =>
    if res.status < 200 ∨ 300 ≤ res.status then
      .error ("Non-OK HTTP for " ++ url)
    else .ok (res.body, res.responseUrl.getD url, res.contentType)

/-! ## CSS text model

A CSS text is modelled at the granularity the two regexes of the source
observe it: a sequence of inert text runs, `url(...)` tokens
(`CSS_URL_RE` matches) and string-form `@import "href";` rules
(`IMPORT_RE` matches that `CSS_URL_RE` does not touch).  An
`@import url(href);` rule would first have its inner token absolutized by
`rewriteCssUrlsToAbs`; the model keeps the two syntactic forms apart and
states the claims over these items. -/

/-- One lexical item of a CSS text. `raw` fields carry the original matched
text, used when a failed resolution leaves the match unchanged. -/
inductive CssItem where
  | plain (s : String)
  | urlTok (raw : String) (ref : String)
  | importRule (raw : String) (href : String)
deriving Repr, DecidableEq

/-- A CSS text as its list of lexical items. -/
abbrev CssDoc := List CssItem

/-- A `<noscript>` block: its raw inner HTML, and the `img`/`source` `src`
values and `srcset` attribute values of the fragment the embedded parser
would produce from that HTML. -/
structure Noscript where
  content : String
  imgSrcs : List String
  srcsetAttrs : List String
deriving Repr, DecidableEq

/-- An element carrying one of the lazy-load attributes
(`data-src` / `data-original` / `data-lazy`): the first non-empty such
value, and the current `src` attribute if present. -/
structure DataEl where
  dataVal : String
  src : Option String
deriving Repr, DecidableEq

/-- The parsed HTML document, viewed through the attribute queries the
source performs on it: one list per selector family, in document order. -/
structure HtmlDoc where
  mediaSrcs : List String
  scriptSrcs : List String
  iconHrefs : List String
  srcsetAttrs : List String
  dataEls : List DataEl
  dataSrcsetAttrs : List String
  styleAttrs : List CssDoc
  noscripts : List Noscript
  linkStylesheets : List String
  linkPreloadStyles : List String
  styleBlocks : List String
deriving Repr, DecidableEq

/-- The external collaborators of the pipeline: WHATWG URL resolution
(`new URL(ref, base).toString()`, `none` when the constructor throws),
the network, the regex view of a fetched CSS body, and the cheerio parse
of an HTML text. -/
structure Env where
  resolve : String → String → Option String
  http : String → Option HttpResp
  cssBody : String → CssDoc
  parse : String → HtmlDoc

/-- The test `/^(data:|#|blob:)/i` on an already-trimmed reference. -/
def isNonFetchableRef (v : String) : Bool :=
  strStartsWith (lowerAscii v) "data:" || strStartsWith (lowerAscii v) "#" ||
    strStartsWith (lowerAscii v) "blob:"

/-- Source `rewriteCssUrlsToAbs` on one item: inert text and string-form
rules for imports are not matched by `CSS_URL_RE`; a `url(...)` token keeps a
non-fetchable reference as `url(val)`, otherwise it is resolved against
the stylesheet URL and collected, and a failed resolution returns the
original match unchanged. -/
def rewriteCssItem (env : Env) (cssFileUrl : String) (item : CssItem)
    (collect : List String) : CssItem × List String :=
  match item with
  | .plain s => (.plain s, collect)
  | .importRule raw href => (.importRule raw href, collect)
  | .urlTok raw ref =>
    let val := jsTrim ref
    if isNonFetchableRef val then (.plain ("url(" ++ val ++ ")"), collect)
    else
      match env.resolve val cssFileUrl with
      | some abs => (.plain ("url(" ++ abs ++ ")"), insertIfAbsent collect abs)
      | none => (.urlTok raw ref, collect)

/-- Source `rewriteCssUrlsToAbs`: rewrite every `url(...)` token of the text
to absolute form, threading the shared collected asset set left to right. -/
def rewriteCssUrlsToAbs (env : Env) (cssFileUrl : String) :
    CssDoc → List String → CssDoc × List String
  | [], collect => ([], collect)
  | item :: rest, collect =>
    let hd := rewriteCssItem env cssFileUrl item collect
    (hd.1 :: (rewriteCssUrlsToAbs env cssFileUrl rest hd.2).1,
      (rewriteCssUrlsToAbs env cssFileUrl rest hd.2).2)

/-! ## Import inlining (source: inlineCssImports)

The source first scans the whole text with `IMPORT_RE`, deciding for each
rule — inside the synchronous scan loop, so before any fetched body is
processed — whether it is skipped (bad URL, or target already visited,
the target being added to the visited set otherwise), and starts one
fetch task per retained rule; the task results are then substituted for
the matched rules.  The model runs the retained fetches sequentially in
scan order (the schedule in which tasks complete in order), threading
the shared visited set, the shared collected asset set, and — as pure
instrumentation of the observable network traffic — the list of import
URLs actually requested. -/

/-- Shared mutable state threaded through import inlining: the visited
set of imports, the collected asset set, and the request log (instrumentation:
the import URLs handed to `fetchText`, in order). -/
structure InlineSt where
  visited : List String
  assets : List String
  fetched : List String
deriving Repr, DecidableEq

/-- Decision taken for one item during the scan phase of `inlineCssImports`. -/
inductive ImportTag where
  | keep (item : CssItem)
  | skip (comment : String)
  | fetchIt (abs : String)
deriving Repr, DecidableEq

/-- Scan phase of `inlineCssImports`: resolve each import target, replace
unresolvable or already-visited targets by diagnostic comments, add fresh
targets to the visited set and (in the dynamic phase) fetch them. -/
def markImports (env : Env) (cssUrl : String) :
    CssDoc → List String → List ImportTag × List String
  | [], vis => ([], vis)
  | item :: rest, vis =>
    match item with
    | .importRule _raw href =>
      match env.resolve href cssUrl with
      | none =>
        (.skip ("/* @import skipped (bad URL): " ++ href ++ " */") ::
            (markImports env cssUrl rest vis).1,
          (markImports env cssUrl rest vis).2)
      | some abs =>
        if abs ∈ vis then
          (.skip ("/* @import skipped (visited): " ++ abs ++ " */") ::
              (markImports env cssUrl rest vis).1,
            (markImports env cssUrl rest vis).2)
        else
          (.fetchIt abs :: (markImports env cssUrl rest (vis ++ [abs])).1,
            (markImports env cssUrl rest (vis ++ [abs])).2)
    | other =>
      (.keep other :: (markImports env cssUrl rest vis).1,
        (markImports env cssUrl rest vis).2)

/-- Dynamic phase of `inlineCssImports`, parameterized by the recursive
continuation `recur` applied to each fetched body at the reduced depth:
a failed fetch becomes a diagnostic comment, a fetched body is
url-rewritten against its final URL, recursively inlined, and wrapped in
provenance comments. -/
def runImports (env : Env)
    (recur : CssDoc → String → InlineSt → CssDoc × InlineSt) :
    List ImportTag → InlineSt → CssDoc × InlineSt
  | [], st => ([], st)
  | .keep item :: ts, st =>
    (item :: (runImports env recur ts st).1, (runImports env recur ts st).2)
  | .skip c :: ts, st =>
    (.plain c :: (runImports env recur ts st).1, (runImports env recur ts st).2)
  | .fetchIt abs :: ts, st =>
    match fetchText env.http abs with
    | .error e =>
      (.plain ("/* @import failed: " ++ abs ++ " (" ++ e ++ ") */") ::
          (runImports env recur ts ⟨st.visited, st.assets, st.fetched ++ [abs]⟩).1,
        (runImports env recur ts ⟨st.visited, st.assets, st.fetched ++ [abs]⟩).2)
    | .ok (text, finalUrl, _ct) =>
      (.plain ("/* @import inlined from " ++ finalUrl ++ " */") ::
          ((recur (rewriteCssUrlsToAbs env finalUrl (env.cssBody text) st.assets).1 finalUrl
              ⟨st.visited, (rewriteCssUrlsToAbs env finalUrl (env.cssBody text) st.assets).2,
                st.fetched ++ [abs]⟩).1 ++
            .plain "/* end import */" ::
              (runImports env recur ts
                (recur (rewriteCssUrlsToAbs env finalUrl (env.cssBody text) st.assets).1
                  finalUrl
                  ⟨st.visited,
                    (rewriteCssUrlsToAbs env finalUrl (env.cssBody text) st.assets).2,
                    st.fetched ++ [abs]⟩).2).1),
        (runImports env recur ts
          (recur (rewriteCssUrlsToAbs env finalUrl (env.cssBody text) st.assets).1 finalUrl
            ⟨st.visited, (rewriteCssUrlsToAbs env finalUrl (env.cssBody text) st.assets).2,
              st.fetched ++ [abs]⟩).2).2)

/-- Source `inlineCssImports`: at depth 0 the text is returned with its
rules for imports unresolved; otherwise the scan phase and then the dynamic
phase run, the recursion descending with depth reduced by one. -/
def inlineCssImports (env : Env) :
    Nat → CssDoc → String → InlineSt → CssDoc × InlineSt
  | 0, doc, _cssUrl, st => (doc, st)
  | d + 1, doc, cssUrl, st =>
    runImports env (fun b u s => inlineCssImports env d b u s)
      (markImports env cssUrl doc st.visited).1
      { st with visited := (markImports env cssUrl doc st.visited).2 }

/-- The content-type gate of `collectCssAndAssets`:
`/text\/css|; ?charset=/i` as a substring test. -/
def cssContentTypeOk (ct : String) : Bool :=
  containsSub (lowerAscii ct) "text/css" || containsSub (lowerAscii ct) ";charset=" ||
    containsSub (lowerAscii ct) "; charset="

/-- Source `collectCssAndAssets`, external stylesheet loop: fetch each
stylesheet, skip non-CSS responses, absolutize its `url(...)` tokens, and
inline its imports at depth 2, threading the shared visited and asset sets. -/
def collectCssExternal (env : Env) :
    List String → InlineSt → CssDoc × InlineSt
  | [], st => ([], st)
  | cssUrl :: rest, st =>
    match fetchText env.http cssUrl with
    | .error e =>
      let (out, st') := collectCssExternal env rest st
      (.plain ("/* Failed CSS " ++ cssUrl ++ ": " ++ e ++ " */") :: out, st')
    | .ok (text, finalUrl, contentType) =>
      if ¬ (cssContentTypeOk contentType || strEndsWith finalUrl ".css") then
        let (out, st') := collectCssExternal env rest st
        (.plain ("/* Skipped non-CSS " ++ finalUrl ++ " */") :: out, st')
      else
        let body := env.cssBody text
        let (b1, as1) := rewriteCssUrlsToAbs env finalUrl body st.assets
        let (b2, st2) := inlineCssImports env 2 b1 finalUrl { st with assets := as1 }
        let (out, st') := collectCssExternal env rest st2
        (.plain ("/* ===== CSS from " ++ finalUrl ++ " ===== */") :: (b2 ++ out), st')

/-- Source `collectCssAndAssets`, inline `<style>` loop: each block is
url-rewritten against its base URL and inlined at depth 1. -/
def collectCssInline (env : Env) :
    List (String × String) → InlineSt → CssDoc × InlineSt
  | [], st => ([], st)
  | (css, baseUrl) :: rest, st =>
    let body := env.cssBody css
    let (b1, as1) := rewriteCssUrlsToAbs env baseUrl body st.assets
    let (b2, st2) := inlineCssImports env 1 b1 baseUrl { st with assets := as1 }
    let (out, st') := collectCssInline env rest st2
    (.plain ("/* ===== Inline style block from " ++ baseUrl ++ " ===== */") ::
      (b2 ++ out), st')

/-- Source `collectCssAndAssets`: the consolidated CSS text (external
stylesheets first, then inline blocks) and the final shared state, starting
from an empty visited set and an empty collected asset set. -/
def collectCssAndAssets (env : Env) (stylesheetUrls : List String)
    (inlineBlocks : List (String × String)) : CssDoc × InlineSt :=
  let (ext, st1) := collectCssExternal env stylesheetUrls ⟨[], [], []⟩
  let (inl, st2) := collectCssInline env inlineBlocks st1
  (ext ++ inl, st2)

/-- Number of unresolved `@import` rules remaining in a CSS text. -/
def countImports (doc : CssDoc) : Nat :=
  doc.countP (fun item => match item with | .importRule _ _ => true | _ => false)

/-! ## HTML scraping (source: extractStyles, parseNoscriptAssets,
collectHtmlAssetUrls) -/

/-- Per-candidate defensive resolution: `try { add(new URL(u, base)) } catch {}` —
a malformed URL is silently skipped. -/
def addAbs (env : Env) (baseUrl : String) (assets : List String) (u : String) :
    List String :=
  match env.resolve u baseUrl with
  | some abs => insertIfAbsent assets abs
  | none => assets

/-- The comma-separated `srcset` candidates: first whitespace-delimited token
of each trimmed item. -/
def srcsetCandidates (s : String) : List String :=
  (splitOnChar ',' s).map (fun item => firstToken (jsTrim item))

/-- Fold `addAbs` over a list of raw candidate values, skipping empty ones
(the `if (u)` guards of the source). -/
def addAllAbs (env : Env) (baseUrl : String) (assets : List String)
    (us : List String) : List String :=
  us.foldl (fun a u => if u = "" then a else addAbs env baseUrl a u) assets

/-- Source `extractStyles`: stylesheet link and preload-as-style link hrefs
resolved against the base URL into a deduplicating set (per-candidate
defensive resolution), plus the non-blank inline style block texts. -/
def extractStyles (env : Env) (doc : HtmlDoc) (baseUrl : String) :
    List String × List String :=
  let links := (doc.linkStylesheets ++ doc.linkPreloadStyles).foldl
    (fun a raw => if raw = "" then a else addAbs env baseUrl a raw) []
  (links, doc.styleBlocks.filter (fun css => jsTrim css ≠ ""))

/-- Source `parseNoscriptAssets`: each block with non-empty inner HTML is
processed as an embedded fragment; the `img[src]` / `source[src]` pass
runs, and then the source evaluates the undefined identifier written as
underscore-dollar-dollar for the srcset pass, which raises a
ReferenceError that aborts the scan.  The model returns that error. -/
def parseNoscriptAssets (env : Env) (baseUrl : String) :
    List Noscript → List String → Except String (List String)
  | [], assets => .ok assets
  | ns :: rest, assets =>
    if ns.content = "" then parseNoscriptAssets env baseUrl rest assets
    else
      let _assets1 := addAllAbs env baseUrl assets ns.imgSrcs
      .error "ReferenceError: _\x24\x24 is not defined"

/-- One inline `style` attribute scanned by `CSS_URL_RE` during discovery:
each `url(...)` token whose trimmed reference is fetchable is resolved and
collected; the attribute text itself is not changed by this scan. -/
def styleAttrAssets (env : Env) (baseUrl : String) (assets : List String)
    (attr : CssDoc) : List String :=
  attr.foldl
    (fun a item =>
      match item with
      | .urlTok _raw ref =>
        let v := jsTrim ref
        if isNonFetchableRef v then a else addAbs env baseUrl a v
      | _ => a)
    assets

/-- Source `collectHtmlAssetUrls`: the union of standard attribute
candidates, `srcset` candidates, lazy-load attributes, `data-srcset`
candidates and inline-style `url(...)` references, each resolved
per-candidate; the `<noscript>` pass runs last and its ReferenceError
propagates out of the discovery pass. -/
def collectHtmlAssetUrls (env : Env) (doc : HtmlDoc) (baseUrl : String) :
    Except String (List String) :=
  let a1 := addAllAbs env baseUrl [] (doc.mediaSrcs ++ doc.scriptSrcs ++ doc.iconHrefs)
  let a2 := doc.srcsetAttrs.foldl
    (fun a s => addAllAbs env baseUrl a (srcsetCandidates s)) a1
  let a3 := doc.dataEls.foldl
    (fun a de => if de.dataVal = "" then a else addAbs env baseUrl a de.dataVal) a2
  let a4 := doc.dataSrcsetAttrs.foldl
    (fun a s => addAllAbs env baseUrl a (srcsetCandidates s)) a3
  let a5 := doc.styleAttrs.foldl (styleAttrAssets env baseUrl) a4
  parseNoscriptAssets env baseUrl doc.noscripts a5

/-! ## HTML rewrite (source: rewriteHtmlReferencesToLocal) -/

/-- Source helper `setLocal`: resolve the attribute value against the base
URL and substitute the mapped local path when the map has one; otherwise
(no entry, resolution failure, empty value) leave the value unchanged. -/
def setLocalAttr (env : Env) (baseUrl : String)
    (urlToLocalRel : List (String × String)) (v : String) : String :=
  if v = "" then v
  else
    match env.resolve v baseUrl with
    | some abs =>
      match mapLookup urlToLocalRel abs with
      | some loc => loc
      | none => v
    | none => v

/-- One `srcset` candidate item under rewrite: the URL token is substituted
by its local path when mapped, the descriptor (second token, further
tokens dropped by `split(/\s+/, 2)`) is reattached with one space. -/
def rewriteSrcsetItem (env : Env) (baseUrl : String)
    (urlToLocalRel : List (String × String)) (item : String) : String :=
  let u := firstToken (jsTrim item)
  let d := secondToken (jsTrim item)
  let out :=
    match env.resolve u baseUrl with
    | some abs =>
      match mapLookup urlToLocalRel abs with
      | some loc => loc
      | none => u
    | none => u
  match d with
  | some desc => out ++ " " ++ desc
  | none => out

/-- A whole `srcset` attribute value under rewrite, candidates re-joined
with a comma and a space. -/
def rewriteSrcsetAttr (env : Env) (baseUrl : String)
    (urlToLocalRel : List (String × String)) (old : String) : String :=
  String.intercalate ", "
    ((splitOnChar ',' old).map (rewriteSrcsetItem env baseUrl urlToLocalRel))

/-- An inline `style` attribute under rewrite: a fetchable `url(...)` token
whose resolved URL is mapped becomes `url(localPath)`; every other item is
returned unchanged. -/
def rewriteStyleAttr (env : Env) (baseUrl : String)
    (urlToLocalRel : List (String × String)) (attr : CssDoc) : CssDoc :=
  attr.map (fun item =>
    match item with
    | .urlTok raw ref =>
      let v := jsTrim ref
      if isNonFetchableRef v then .urlTok raw ref
      else
        match env.resolve v baseUrl with
        | some abs =>
          match mapLookup urlToLocalRel abs with
          | some loc => .plain ("url(" ++ loc ++ ")")
          | none => .urlTok raw ref
        | none => .urlTok raw ref
    | other => other)

/-- A lazy-load element under rewrite: when the data value maps to a local
path and the element has no `src` attribute yet, the local path is adopted
as `src`. -/
def adoptDataSrc (env : Env) (baseUrl : String)
    (urlToLocalRel : List (String × String)) (de : DataEl) : DataEl :=
  match env.resolve de.dataVal baseUrl with
  | some abs =>
    match mapLookup urlToLocalRel abs with
    | some loc => if de.src = none then { de with src := some loc } else de
    | none => de
  | none => de

/-- Source `rewriteHtmlReferencesToLocal`: every mapped reference in `src`,
`href`, `srcset`, `data-srcset`, lazy-load and inline-style positions is
substituted by its local path; all `link[rel~="stylesheet"]` elements and
all `style` elements are removed, a `head` is created when absent, and a
single `link rel="stylesheet" href="style.css"` element is appended to it
(the resulting document holds exactly that one stylesheet link). -/
def rewriteHtmlReferencesToLocal (env : Env) (doc : HtmlDoc) (baseUrl : String)
    (urlToLocalRel : List (String × String)) : HtmlDoc :=
  { mediaSrcs := doc.mediaSrcs.map (setLocalAttr env baseUrl urlToLocalRel)
    scriptSrcs := doc.scriptSrcs.map (setLocalAttr env baseUrl urlToLocalRel)
    iconHrefs := doc.iconHrefs.map (setLocalAttr env baseUrl urlToLocalRel)
    srcsetAttrs := doc.srcsetAttrs.map (rewriteSrcsetAttr env baseUrl urlToLocalRel)
    dataEls := doc.dataEls.map (adoptDataSrc env baseUrl urlToLocalRel)
    dataSrcsetAttrs := doc.dataSrcsetAttrs.map (rewriteSrcsetAttr env baseUrl urlToLocalRel)
    styleAttrs := doc.styleAttrs.map (rewriteStyleAttr env baseUrl urlToLocalRel)
    noscripts := doc.noscripts
    linkStylesheets := ["style.css"]
    linkPreloadStyles := doc.linkPreloadStyles
    styleBlocks := [] }

/-! ## Concurrent downloader (source: downloadWithConcurrency)

Workers atomically claim the next unclaimed index and write their result
back at that index, so the output slot for a URL is a function of that
URL alone and the completion order only determines the order in which
slots are filled.  The model takes the completion order as an explicit
permutation of the index range and folds the indexed write-backs in that
order over an initially unfilled array. -/

/-- One download outcome.  A failure leaves `finalUrl`, `contentType` and
`buf` empty and records the error message, mirroring the object shapes of
the source. -/
structure Outcome where
  ok : Bool
  url : String
  finalUrl : String
  contentType : String
  buf : String
  error : String
deriving Repr, DecidableEq

/-- One worker iteration body: a successful `fetchBinary` yields a success
outcome, a failure yields an error outcome for the same URL. -/
def downloadOne (http : String → Option HttpResp) (url : String) : Outcome :=
  match fetchBinary http url with
  | .ok (buf, finalUrl, contentType) => ⟨true, url, finalUrl, contentType, buf, ""⟩
  | .error e => ⟨false, url, "", "", "", e⟩

/-- Source `downloadWithConcurrency`: the indexed write-backs, folded in the
completion order `order` over the initially unfilled output array. -/
def downloadWithConcurrency (http : String → Option HttpResp)
    (urls : List String) (order : List Nat) : List (Option Outcome) :=
  order.foldl
    (fun out idx => out.set idx (some (downloadOne http (urls.getD idx ""))))
    (List.replicate urls.length none)

/-! ## URL-to-local-path map and main glue (source: main, steps 5 and 6) -/

/-- The `r.finalUrl || r.url` fallback of the map-building loop (a failure
outcome carries no final URL). -/
def finalKey (r : Outcome) : String :=
  if r.finalUrl = "" then r.url else r.finalUrl

/-- Source `main`, map-building loop: failed outcomes are skipped; for a
successful outcome the local path is computed from the final URL (with
requested-URL fallback) and the content type, and stored under both the
final URL and the requested URL. -/
def buildMapStep (db : MimeDb) (hash : String → String)
    (m : List (String × String)) (r : Outcome) : List (String × String) :=
  if r.ok then
    let key := finalKey r
    let localRel := localPathForAsset db hash key r.contentType
    mapSet (mapSet m key localRel) r.url localRel
  else m

/-- The whole map-building loop, starting from an empty map. -/
def buildUrlToLocalMap (db : MimeDb) (hash : String → String)
    (results : List Outcome) : List (String × String) :=
  results.foldl (buildMapStep db hash) []

/-- The scheme filter of `main`, step 5: `/^https?:\/\//` (no ignore-case
flag; URL normalization lowercases schemes before this point). -/
def isHttpUrl (u : String) : Bool :=
  strStartsWith u "http://" || strStartsWith u "https://"

/-- Source `main`, step 5: the deduplicated union of the HTML-discovered and
CSS-discovered asset URLs, restricted to http(s) URLs, in first-occurrence
order (`Array.from(new Set(...filter(...)))`). -/
def allAssetUrls (htmlAssetUrls cssAssetUrls : List String) : List String :=
  ((htmlAssetUrls ++ cssAssetUrls).filter (fun u => isHttpUrl u)).foldl
    insertIfAbsent []

/-- The discovery stage of `main` (steps 1 to 3): fetch the page, then
resolve stylesheets, inline blocks and HTML asset candidates — all against
the final post-redirect URL of the page, which the record keeps as `base`. -/
structure DiscoverResult where
  base : String
  stylesheetUrls : List String
  inlineBlocks : List (String × String)
  htmlAssetUrls : List String

/-- Source `main`, steps 1 to 3: `fetchHTML`, then `extractStyles` and
`collectHtmlAssetUrls`, both called with `page.finalUrl` as base; inline
blocks are tagged with that same base URL. -/
def pageDiscovery (env : Env) (url : String) : Except String DiscoverResult :=
  match fetchHTML env.http url with
  | .error e => .error e
  | .ok page =>
    let doc := env.parse page.html
    let styles := extractStyles env doc page.finalUrl
    match collectHtmlAssetUrls env doc page.finalUrl with
    | .error e => .error e
    | .ok htmlAssets =>
      .ok ⟨page.finalUrl, styles.1,
        styles.2.map (fun css => (css, page.finalUrl)), htmlAssets⟩

/-! ## Concrete environments used by witnesses and counterexamples -/

/-- A mime database that knows nothing (both lookups miss). -/
def mimeDb0 : MimeDb := ⟨fun _ => none, fun _ => none⟩

/-- A constant stand-in for the 8-character sha1 digest. -/
def hash0 : String → String := fun _ => "deadbeef"

/-- A document with no elements at all. -/
def emptyHtmlDoc : HtmlDoc := ⟨[], [], [], [], [], [], [], [], [], [], []⟩

/-- A small URL resolver: absolute http(s) strings resolve to themselves,
a reference starting with a colon fails to parse, anything else resolves
by prefixing the base URL. -/
def resolveSimple : String → String → Option String := fun v b =>
  if isHttpUrl v then some v
  else if strStartsWith v ":" then none
  else some (b ++ v)

/-- An environment with the simple resolver and a dead network. -/
def envSimple : Env := ⟨resolveSimple, fun _ => none, fun _ => [], fun _ => emptyHtmlDoc⟩

/-- A document whose media sources include one malformed URL between two
well-formed ones, and which contains no noscript block. -/
def docGoodC2 : HtmlDoc :=
  { emptyHtmlDoc with mediaSrcs := ["good.png", "://bad", "img2.png"] }

/-- A document with one noscript block whose inner HTML is non-empty. -/
def docNoscriptC2 : HtmlDoc :=
  { emptyHtmlDoc with noscripts := [⟨"<img src=a.png>", ["a.png"], []⟩] }

/-- A document with two stylesheet links, one preload-as-style link and one
inline style block. -/
def docC8 : HtmlDoc :=
  { emptyHtmlDoc with
    linkStylesheets := ["a.css", "b.css"]
    linkPreloadStyles := ["pre.css"]
    styleBlocks := ["body { color: red }"] }

/-- A string-form import rule item for the given absolute target. -/
def importItem (u : String) : CssItem :=
  .importRule ("@import \x22" ++ u ++ "\x22;") u

/-- Environment for the self-import scenario: the stylesheet at `a.css`
pulls in itself. -/
def envSelf : Env :=
  { resolve := fun v _ => if isHttpUrl v then some v else none
    http := fun u =>
      if u = "https://x.test/a.css" then some ⟨200, "A", none, "text/css"⟩ else none
    cssBody := fun s => if s = "A" then [importItem "https://x.test/a.css"] else []
    parse := fun _ => emptyHtmlDoc }

/-- Environment for the import-chain scenario: `c0.css` imports `c1.css`,
which imports `c2.css`, which imports `c3.css`, whose body is plain. -/
def envChain : Env :=
  { resolve := fun v _ => if isHttpUrl v then some v else none
    http := fun u =>
      if u = "https://x.test/c0.css" then some ⟨200, "B0", none, "text/css"⟩
      else if u = "https://x.test/c1.css" then some ⟨200, "B1", none, "text/css"⟩
      else if u = "https://x.test/c2.css" then some ⟨200, "B2", none, "text/css"⟩
      else if u = "https://x.test/c3.css" then some ⟨200, "B3", none, "text/css"⟩
      else none
    cssBody := fun s =>
      if s = "B0" then [importItem "https://x.test/c1.css"]
      else if s = "B1" then [importItem "https://x.test/c2.css"]
      else if s = "B2" then [importItem "https://x.test/c3.css"]
      else if s = "B3" then [CssItem.plain "p { margin: 0 }"]
      else []
    parse := fun _ => emptyHtmlDoc }

/-! ## Claim C7 -/

/-- C7: local path assignment is a pure, deterministic function of the pair
(absolute URL, content type): equal pairs yield the identical path, and the
path decomposes as the `assets/` prefix, the subfolder chosen by
`classifyByExtOrMime`, and a filename determined by the same pair. -/
theorem localPathForAsset_pure (db : MimeDb) (hash : String → String)
    (u₁ ct₁ u₂ ct₂ : String) (hu : u₁ = u₂) (hct : ct₁ = ct₂) :
    localPathForAsset db hash u₁ ct₁ = localPathForAsset db hash u₂ ct₂ ∧
    localPathForAsset db hash u₁ ct₁ =
      "assets/" ++ classifyByExtOrMime db u₁ ct₁ ++ "/" ++
        assetFileName db hash u₁ ct₁ := by
  subst hu; subst hct
  exact ⟨rfl, rfl⟩

/-- Witness for C7 at a concrete pair. -/
theorem localPathForAsset_pure_witness :
    localPathForAsset mimeDb0 hash0 "https://x.test/a.png" "image/png" =
      localPathForAsset mimeDb0 hash0 "https://x.test/a.png" "image/png" ∧
    localPathForAsset mimeDb0 hash0 "https://x.test/a.png" "image/png" =
      "assets/" ++ classifyByExtOrMime mimeDb0 "https://x.test/a.png" "image/png" ++ "/" ++
        assetFileName mimeDb0 hash0 "https://x.test/a.png" "image/png" :=
  localPathForAsset_pure mimeDb0 hash0 _ _ _ _ rfl rfl

/-! ## Claim C2 -/

/-- C2: discovery skips a malformed URL per candidate without aborting the
rest (first conjunct), but the noscript pass evaluates an undefined
identifier as soon as a noscript block has non-empty content, so discovery
throws a ReferenceError there instead of collecting the block's assets
(second conjunct, evaluating the code at the failing input). -/
theorem collectHtmlAssetUrls_noscript_crash :
    collectHtmlAssetUrls envSimple docGoodC2 "https://x.test/" =
      .ok ["https://x.test/good.png", "https://x.test/img2.png"] ∧
    collectHtmlAssetUrls envSimple docNoscriptC2 "https://x.test/" =
      .error "ReferenceError: _\x24\x24 is not defined" := by
  exact ⟨rfl, rfl⟩

/-! ## Claim C8 -/

/-- C8 counterexample: a preload-as-style link is collected as a stylesheet
source by extractStyles, yet the rewrite pass leaves the preload link
element in the document (only `rel~="stylesheet"` links are removed), so
"every stylesheet link element including preload-as-style links is
removed" fails on this document. -/
theorem rewriteHtml_preload_retained :
    "https://x.test/pre.css" ∈ (extractStyles envSimple docC8 "https://x.test/").1 ∧
    (rewriteHtmlReferencesToLocal envSimple docC8 "https://x.test/" []).linkPreloadStyles =
      ["pre.css"] := by
  exact ⟨by decide, rfl⟩

/-- C8 amended: after the rewrite pass every `link[rel~="stylesheet"]`
element and every `style` element is gone and exactly the single
`style.css` stylesheet link remains, while preload-as-style links are left
in place unchanged. -/
theorem rewriteHtml_stylesheet_replacement (env : Env) (doc : HtmlDoc)
    (baseUrl : String) (m : List (String × String)) :
    (rewriteHtmlReferencesToLocal env doc baseUrl m).linkStylesheets = ["style.css"] ∧
    (rewriteHtmlReferencesToLocal env doc baseUrl m).styleBlocks = [] ∧
    (rewriteHtmlReferencesToLocal env doc baseUrl m).linkPreloadStyles =
      doc.linkPreloadStyles :=
  ⟨rfl, rfl, rfl⟩

/-! ## Claim C5 -/

/-- C5: at depth 0 import rules are left unresolved (the text is returned
unchanged); an import chain of length 3 behind one externally linked
stylesheet (inlined at depth 2) leaves exactly one unresolved import,
namely the deepest target; and an import chain of length 2 behind an
inline style block (inlined at depth 1) likewise leaves exactly one. -/
theorem inlineCssImports_depth_bound :
    (∀ env doc cssUrl st, inlineCssImports env 0 doc cssUrl st = (doc, st)) ∧
    countImports (collectCssAndAssets envChain ["https://x.test/c0.css"] []).1 = 1 ∧
    importItem "https://x.test/c3.css" ∈
      (collectCssAndAssets envChain ["https://x.test/c0.css"] []).1 ∧
    countImports (collectCssAndAssets envChain [] [("B1", "https://x.test/c1.css")]).1 = 1 := by
  exact ⟨fun env doc cssUrl st => rfl, by decide, by decide, by decide⟩

/-! ## Map lemmas -/

/-- Lookup over a cons cell: the head wins when its key matches. -/
lemma mapLookup_cons (p : String × String) (m : List (String × String)) (k : String) :
    mapLookup (p :: m) k = if p.1 = k then some p.2 else mapLookup m k := by
  unfold mapLookup
  by_cases h : p.1 = k
  · rw [List.find?_cons_of_pos _ (by simp [h]), if_pos h]
    rfl
  · rw [List.find?_cons_of_neg _ (by simp [h]), if_neg h]

/-- Setting a key makes it look up to the new value. -/
lemma mapLookup_mapSet_self (k v : String) :
    ∀ m : List (String × String), mapLookup (mapSet m k v) k = some v := by
  intro m
  induction m with
  | nil => simp [mapSet, mapLookup_cons, mapLookup]
  | cons p rest ih =>
    by_cases h : p.1 = k
    · simp [mapSet, h, mapLookup_cons]
    · simp [mapSet, h, mapLookup_cons, ih]

/-- Setting a key leaves every other key's lookup unchanged. -/
lemma mapLookup_mapSet_ne (k v k' : String) (hne : k' ≠ k) :
    ∀ m : List (String × String), mapLookup (mapSet m k v) k' = mapLookup m k' := by
  intro m
  induction m with
  | nil => simp [mapSet, mapLookup_cons, mapLookup, Ne.symm hne]
  | cons p rest ih =>
    by_cases h : p.1 = k
    · simp [mapSet, h, mapLookup_cons, Ne.symm hne]
    · simp [mapSet, h, mapLookup_cons, ih]

/-- The two keys a successful outcome writes into the map. -/
def outcomeKeys (r : Outcome) : List String := [r.url, finalKey r]

/-- Folding the map-building step over outcomes none of which (when
successful) write the key `k` leaves the lookup of `k` unchanged. -/
lemma buildMap_untouched (db : MimeDb) (hsh : String → String) :
    ∀ (rs : List Outcome) (m : List (String × String)) (k : String),
      (∀ r ∈ rs, r.ok = true → k ∉ outcomeKeys r) →
      mapLookup (rs.foldl (buildMapStep db hsh) m) k = mapLookup m k := by
  intro rs
  induction rs with
  | nil => intro m k _; rfl
  | cons r rest ih =>
    intro m k hk
    rw [List.foldl_cons, ih _ _ (fun r' hr' => hk r' (List.mem_cons_of_mem _ hr'))]
    unfold buildMapStep
    by_cases hok : r.ok = true
    · have h1 : k ∉ outcomeKeys r := hk r (List.mem_cons_self _ _) hok
      simp only [outcomeKeys, List.mem_cons, List.mem_singleton, not_or] at h1
      simp only [hok, if_true]
      rw [mapLookup_mapSet_ne _ _ _ h1.1, mapLookup_mapSet_ne _ _ _ h1.2.1]
    · simp [hok]

/-- Under pairwise key-disjointness of the successful outcomes, both keys of
every successful outcome look up to the local path computed for it. -/
lemma buildMap_lookup_both (db : MimeDb) (hsh : String → String) :
    ∀ (rs : List Outcome) (m : List (String × String)),
      rs.Pairwise (fun a b => a.ok = true → b.ok = true →
        ∀ k ∈ outcomeKeys a, k ∉ outcomeKeys b) →
      ∀ r ∈ rs, r.ok = true →
        mapLookup (rs.foldl (buildMapStep db hsh) m) r.url =
          some (localPathForAsset db hsh (finalKey r) r.contentType) ∧
        mapLookup (rs.foldl (buildMapStep db hsh) m) (finalKey r) =
          some (localPathForAsset db hsh (finalKey r) r.contentType) := by
  intro rs
  induction rs with
  | nil => intro m _ r hr; exact absurd hr (List.not_mem_nil r)
  | cons r0 rest ih =>
    intro m hpw r hr hok
    rw [List.pairwise_cons] at hpw
    rcases List.mem_cons.mp hr with heq | hmem
    · subst heq
      rw [List.foldl_cons]
      have hstep : ∀ k', k' ∈ outcomeKeys r →
          mapLookup (rest.foldl (buildMapStep db hsh) (buildMapStep db hsh m r)) k' =
            mapLookup (buildMapStep db hsh m r) k' := by
        intro k' hk'
        exact buildMap_untouched db hsh rest _ k'
          (fun r' hr' hok' => hpw.1 r' hr' hok hok' k' hk')
      constructor
      · rw [hstep r.url (by simp [outcomeKeys])]
        unfold buildMapStep
        simp only [hok, if_true]
        exact mapLookup_mapSet_self _ _ _
      · rw [hstep (finalKey r) (by simp [outcomeKeys])]
        unfold buildMapStep
        simp only [hok, if_true]
        by_cases hkey : finalKey r = r.url
        · rw [hkey]; exact mapLookup_mapSet_self _ _ _
        · rw [mapLookup_mapSet_ne _ _ _ hkey]
          exact mapLookup_mapSet_self _ _ _
    · exact ih _ hpw.2 r hmem hok

/-- A present key either was present before a set or is the set key. -/
lemma mapLookup_mapSet_isSome (k v k' : String) (m : List (String × String)) :
    (mapLookup (mapSet m k v) k').isSome = true →
    k' = k ∨ (mapLookup m k').isSome = true := by
  intro h
  by_cases hk : k' = k
  · exact Or.inl hk
  · rw [mapLookup_mapSet_ne _ _ _ hk] at h
    exact Or.inr h

/-- Every key present after folding the map-building step was present
before or was written by some successful outcome of the fold. -/
lemma buildMap_key_src (db : MimeDb) (hsh : String → String) :
    ∀ (rs : List Outcome) (m : List (String × String)) (k : String),
      (mapLookup (rs.foldl (buildMapStep db hsh) m) k).isSome = true →
      (mapLookup m k).isSome = true ∨
        ∃ r, r ∈ rs ∧ r.ok = true ∧ (k = r.url ∨ k = finalKey r) := by
  intro rs
  induction rs with
  | nil => intro m k h; exact Or.inl h
  | cons r rest ih =>
    intro m k h
    rw [List.foldl_cons] at h
    rcases ih _ _ h with h1 | ⟨r', hr', hok', hkey'⟩
    · unfold buildMapStep at h1
      by_cases hok : r.ok = true
      · simp only [hok, if_true] at h1
        rcases mapLookup_mapSet_isSome _ _ _ _ h1 with hu | h2
        · exact Or.inr ⟨r, List.mem_cons_self _ _, hok, Or.inl hu⟩
        · rcases mapLookup_mapSet_isSome _ _ _ _ h2 with hf | h3
          · exact Or.inr ⟨r, List.mem_cons_self _ _, hok, Or.inr hf⟩
          · exact Or.inl h3
      · simp only [hok, if_false] at h1
        exact Or.inl h1
    · exact Or.inr ⟨r', List.mem_cons_of_mem _ hr', hok', hkey'⟩

/-! ## Claim C1 -/

/-- C1 counterexample: two successful outcomes where the final URL of the
first equals the requested URL of the second; the later write wins, so the
final map holds different local paths under the first outcome's requested
URL and final URL, refuting the claim as stated. -/
def cexR1 : Outcome := ⟨true, "http://a.test/x", "http://b.test/y", "image/png", "P1", ""⟩

/-- The aliasing second outcome of the C1 counterexample. -/
def cexR2 : Outcome := ⟨true, "http://b.test/y", "http://b.test/y", "text/javascript", "P2", ""⟩

/-- C1 counterexample theorem: on the concrete outcome list `[cexR1, cexR2]`
the successful outcome `cexR1` does not map to the same local path under
its requested URL and its final URL. -/
theorem urlMap_alias_counterexample :
    cexR1.ok = true ∧
    mapLookup (buildUrlToLocalMap mimeDb0 hash0 [cexR1, cexR2]) cexR1.url ≠
      mapLookup (buildUrlToLocalMap mimeDb0 hash0 [cexR1, cexR2]) (finalKey cexR1) := by
  exact ⟨rfl, by decide⟩

/-- C1 amended: the map is built exclusively from successful outcomes (every
present key was written by a successful outcome under its requested or
final URL), and whenever no two distinct successful outcomes share a
requested or final URL, every successful outcome's requested URL and final
URL both map to the identical local path. -/
theorem urlMap_successful_keys (db : MimeDb) (hsh : String → String)
    (rs : List Outcome)
    (hdisj : rs.Pairwise (fun a b => a.ok = true → b.ok = true →
      ∀ k ∈ outcomeKeys a, k ∉ outcomeKeys b)) :
    (∀ k, (mapLookup (buildUrlToLocalMap db hsh rs) k).isSome = true →
      ∃ r, r ∈ rs ∧ r.ok = true ∧ (k = r.url ∨ k = finalKey r)) ∧
    (∀ r ∈ rs, r.ok = true →
      mapLookup (buildUrlToLocalMap db hsh rs) r.url =
        some (localPathForAsset db hsh (finalKey r) r.contentType) ∧
      mapLookup (buildUrlToLocalMap db hsh rs) (finalKey r) =
        some (localPathForAsset db hsh (finalKey r) r.contentType)) := by
  constructor
  · intro k hk
    rcases buildMap_key_src db hsh rs [] k hk with h0 | h1
    · simp [mapLookup] at h0
    · exact h1
  · intro r hr hok
    exact buildMap_lookup_both db hsh rs [] hdisj r hr hok

/-- Witness for C1 at a concrete singleton outcome list. -/
theorem urlMap_successful_keys_witness :
    mapLookup (buildUrlToLocalMap mimeDb0 hash0 [cexR1]) cexR1.url =
      some (localPathForAsset mimeDb0 hash0 (finalKey cexR1) cexR1.contentType) :=
  ((urlMap_successful_keys mimeDb0 hash0 [cexR1] (by simp)).2 cexR1
    (List.mem_singleton.mpr rfl) rfl).1

/-! ## Claim C10 -/

/-- Membership in a deduplicating fold is membership in the seed or the list. -/
lemma foldl_insertIfAbsent_mem :
    ∀ (l acc : List String) (a : String),
      a ∈ l.foldl insertIfAbsent acc ↔ a ∈ acc ∨ a ∈ l := by
  intro l
  induction l with
  | nil => simp
  | cons x rest ih =>
    intro acc a
    rw [List.foldl_cons, ih]
    unfold insertIfAbsent
    by_cases h : x ∈ acc
    · simp only [h, if_true, List.mem_cons]
      constructor
      · rintro (ha | hr)
        · exact Or.inl ha
        · exact Or.inr (Or.inr hr)
      · rintro (ha | hx | hr)
        · exact Or.inl ha
        · exact Or.inl (hx ▸ h)
        · exact Or.inr hr
    · simp only [h, if_false, List.mem_append, List.mem_singleton, List.mem_cons]
      tauto

/-- C10: every URL in the combined downloadable asset set starts with the
http or https scheme; a candidate with any other scheme is filtered out of
the set; and, provided every successful outcome's requested and final URLs
are http(s) (the transport only follows http redirects), a non-http(s)
string never gains an entry in the URL-to-local-path map. -/
theorem allAssetUrls_http_only :
    (∀ h c u, u ∈ allAssetUrls h c → isHttpUrl u = true) ∧
    (∀ h c u, isHttpUrl u = false → u ∉ allAssetUrls h c) ∧
    (∀ (db : MimeDb) (hsh : String → String) (rs : List Outcome),
      (∀ r ∈ rs, r.ok = true → isHttpUrl r.url = true ∧ isHttpUrl (finalKey r) = true) →
      ∀ k, isHttpUrl k = false → mapLookup (buildUrlToLocalMap db hsh rs) k = none) := by
  have hmem : ∀ h c u, u ∈ allAssetUrls h c → isHttpUrl u = true := by
    intro h c u hu
    unfold allAssetUrls at hu
    rw [foldl_insertIfAbsent_mem] at hu
    rcases hu with h0 | h1
    · exact absurd h0 (List.not_mem_nil u)
    · exact (List.mem_filter.mp h1).2
  refine ⟨hmem, ?_, ?_⟩
  · intro h c u hu hcontra
    rw [hmem h c u hcontra] at hu
    exact Bool.noConfusion hu
  · intro db hsh rs hkeys k hk
    unfold buildUrlToLocalMap
    rw [buildMap_untouched db hsh rs [] k ?_]
    · rfl
    · intro r hr hok hmemk
      unfold outcomeKeys at hmemk
      rcases List.mem_cons.mp hmemk with h1 | hrest
      · rw [h1, (hkeys r hr hok).1] at hk
        exact Bool.noConfusion hk
      · rw [List.mem_singleton.mp hrest, (hkeys r hr hok).2] at hk
        exact Bool.noConfusion hk

/-- Witness for C10: the map part applied to a concrete outcome list and a
concrete non-http key. -/
theorem allAssetUrls_http_only_witness :
    mapLookup (buildUrlToLocalMap mimeDb0 hash0 [cexR2]) "data:image/png;base64,AAAA" = none :=
  allAssetUrls_http_only.2.2 mimeDb0 hash0 [cexR2]
    (fun r hr _ => by
      rw [List.mem_singleton.mp hr]
      exact ⟨rfl, rfl⟩)
    "data:image/png;base64,AAAA" rfl

/-! ## Claim C3 -/

/-- Spec-side restatement of the per-token rewrite (section 4.5 of the
spec): non-fetchable references are left untouched inside their token,
every other reference is replaced by its absolute resolution, a
non-resolvable token is returned unchanged, and non-token items are not
modified.  Compared below against the source translation. -/
def cssItemRewriteSpec (env : Env) (baseUrl : String) (item : CssItem) : CssItem :=
  match item with
  | .plain s => .plain s
  | .importRule raw href => .importRule raw href
  | .urlTok raw ref =>
    let val := jsTrim ref
    if isNonFetchableRef val then .plain ("url(" ++ val ++ ")")
    else
      match env.resolve val baseUrl with
      | some abs => .plain ("url(" ++ abs ++ ")")
      | none => .urlTok raw ref

/-- The rewritten item of the source function does not depend on the
collected set and agrees with the spec-side restatement. -/
lemma rewriteCssItem_fst (env : Env) (base : String) (item : CssItem)
    (collect : List String) :
    (rewriteCssItem env base item collect).1 = cssItemRewriteSpec env base item := by
  cases item with
  | plain s => rfl
  | importRule raw href => rfl
  | urlTok raw ref =>
    simp only [rewriteCssItem, cssItemRewriteSpec]
    by_cases h : isNonFetchableRef (jsTrim ref) = true
    · simp [h]
    · simp only [h, Bool.false_eq_true, if_false]
      cases hr : env.resolve (jsTrim ref) base <;> simp

/-- Membership in a deduplicating insert. -/
lemma insertIfAbsent_mem (l : List String) (x a : String) :
    a ∈ insertIfAbsent l x ↔ a ∈ l ∨ a = x := by
  unfold insertIfAbsent
  by_cases h : x ∈ l
  · simp only [h, if_true]
    constructor
    · exact Or.inl
    · rintro (ha | ha)
      · exact ha
      · exact ha ▸ h
  · simp [h, List.mem_append]

/-- The document component of the rewrite is the pointwise spec map. -/
lemma rewriteCssUrlsToAbs_fst (env : Env) (base : String) :
    ∀ (doc : CssDoc) (collect : List String),
      (rewriteCssUrlsToAbs env base doc collect).1 =
        doc.map (cssItemRewriteSpec env base) := by
  intro doc
  induction doc with
  | nil => intro collect; rfl
  | cons item rest ih =>
    intro collect
    show (rewriteCssItem env base item collect).1 ::
        (rewriteCssUrlsToAbs env base rest (rewriteCssItem env base item collect).2).1 = _
    rw [rewriteCssItem_fst, ih, List.map_cons]

/-- The collected set after the rewrite contains exactly the seed together
with the successful fetchable resolutions of the url tokens of the text. -/
lemma rewriteCssUrlsToAbs_snd_mem (env : Env) (base : String) :
    ∀ (doc : CssDoc) (collect : List String) (a : String),
      a ∈ (rewriteCssUrlsToAbs env base doc collect).2 ↔
        (a ∈ collect ∨ ∃ raw ref, CssItem.urlTok raw ref ∈ doc ∧
          isNonFetchableRef (jsTrim ref) = false ∧
          env.resolve (jsTrim ref) base = some a) := by
  intro doc
  induction doc with
  | nil =>
    intro collect a
    simp [rewriteCssUrlsToAbs]
  | cons item rest ih =>
    intro collect a
    have hstep : (rewriteCssUrlsToAbs env base (item :: rest) collect).2 =
        (rewriteCssUrlsToAbs env base rest (rewriteCssItem env base item collect).2).2 := rfl
    rw [hstep, ih]
    cases item with
    | plain s =>
      simp only [rewriteCssItem, List.mem_cons]
      constructor
      · rintro (h0 | ⟨raw, ref, hmem, hcond⟩)
        · exact Or.inl h0
        · exact Or.inr ⟨raw, ref, Or.inr hmem, hcond⟩
      · rintro (h0 | ⟨raw, ref, heq | hmem, hcond⟩)
        · exact Or.inl h0
        · exact absurd heq (by simp)
        · exact Or.inr ⟨raw, ref, hmem, hcond⟩
    | importRule raw0 href0 =>
      simp only [rewriteCssItem, List.mem_cons]
      constructor
      · rintro (h0 | ⟨raw, ref, hmem, hcond⟩)
        · exact Or.inl h0
        · exact Or.inr ⟨raw, ref, Or.inr hmem, hcond⟩
      · rintro (h0 | ⟨raw, ref, heq | hmem, hcond⟩)
        · exact Or.inl h0
        · exact absurd heq (by simp)
        · exact Or.inr ⟨raw, ref, hmem, hcond⟩
    | urlTok raw0 ref0 =>
      by_cases h : isNonFetchableRef (jsTrim ref0) = true
      · simp only [rewriteCssItem, h, if_true, List.mem_cons]
        constructor
        · rintro (h0 | ⟨raw, ref, hmem, hcond⟩)
          · exact Or.inl h0
          · exact Or.inr ⟨raw, ref, Or.inr hmem, hcond⟩
        · rintro (h0 | ⟨raw, ref, heq | hmem, hcond⟩)
          · exact Or.inl h0
          · obtain ⟨h1, h2⟩ := CssItem.urlTok.inj heq
            rw [h2] at hcond
            rw [hcond.1] at h
            exact Bool.noConfusion h
          · exact Or.inr ⟨raw, ref, hmem, hcond⟩
      · have h' : isNonFetchableRef (jsTrim ref0) = false := by
          cases hb : isNonFetchableRef (jsTrim ref0)
          · rfl
          · exact absurd hb h
        cases hr : env.resolve (jsTrim ref0) base with
        | none =>
          simp only [rewriteCssItem, h', Bool.false_eq_true, if_false, hr, List.mem_cons]
          constructor
          · rintro (h0 | ⟨raw, ref, hmem, hcond⟩)
            · exact Or.inl h0
            · exact Or.inr ⟨raw, ref, Or.inr hmem, hcond⟩
          · rintro (h0 | ⟨raw, ref, heq | hmem, hcond⟩)
            · exact Or.inl h0
            · obtain ⟨h1, h2⟩ := CssItem.urlTok.inj heq
              rw [h2] at hcond
              rw [hr] at hcond
              exact Option.noConfusion hcond.2
            · exact Or.inr ⟨raw, ref, hmem, hcond⟩
        | some abs =>
          simp only [rewriteCssItem, h', Bool.false_eq_true, if_false, hr, List.mem_cons]
          rw [insertIfAbsent_mem]
          constructor
          · rintro ((h0 | habs) | ⟨raw, ref, hmem, hcond⟩)
            · exact Or.inl h0
            · exact Or.inr ⟨raw0, ref0, Or.inl rfl, h', habs ▸ hr⟩
            · exact Or.inr ⟨raw, ref, Or.inr hmem, hcond⟩
          · rintro (h0 | ⟨raw, ref, heq | hmem, hcond⟩)
            · exact Or.inl (Or.inl h0)
            · obtain ⟨h1, h2⟩ := CssItem.urlTok.inj heq
              rw [h2] at hcond
              rw [hr] at hcond
              exact Or.inl (Or.inr (Option.some.inj hcond.2).symm)
            · exact Or.inr ⟨raw, ref, hmem, hcond⟩

/-- C3: the rewrite maps each item pointwise — inert text and string-form
rules for imports unchanged, a non-fetchable (data:, fragment, blob:) reference
kept verbatim inside its token, every other resolvable reference replaced
by its absolute form — and the shared asset set gains exactly the absolute
URLs of the resolved references. -/
theorem rewriteCssUrlsToAbs_spec (env : Env) (base : String) (doc : CssDoc)
    (collect : List String) :
    (rewriteCssUrlsToAbs env base doc collect).1 =
      doc.map (cssItemRewriteSpec env base) ∧
    (∀ s, cssItemRewriteSpec env base (.plain s) = .plain s) ∧
    (∀ raw href, cssItemRewriteSpec env base (.importRule raw href) =
      .importRule raw href) ∧
    (∀ raw ref, isNonFetchableRef (jsTrim ref) = true →
      cssItemRewriteSpec env base (.urlTok raw ref) =
        .plain ("url(" ++ jsTrim ref ++ ")")) ∧
    (∀ raw ref abs, isNonFetchableRef (jsTrim ref) = false →
      env.resolve (jsTrim ref) base = some abs →
      cssItemRewriteSpec env base (.urlTok raw ref) =
        .plain ("url(" ++ abs ++ ")")) ∧
    (∀ a, a ∈ (rewriteCssUrlsToAbs env base doc collect).2 ↔
      (a ∈ collect ∨ ∃ raw ref, CssItem.urlTok raw ref ∈ doc ∧
        isNonFetchableRef (jsTrim ref) = false ∧
        env.resolve (jsTrim ref) base = some a)) := by
  refine ⟨rewriteCssUrlsToAbs_fst env base doc collect, fun s => rfl,
    fun raw href => rfl, ?_, ?_, rewriteCssUrlsToAbs_snd_mem env base doc collect⟩
  · intro raw ref h
    simp [cssItemRewriteSpec, h]
  · intro raw ref abs h hr
    simp [cssItemRewriteSpec, h, hr]

/-- Witness for C3: a resolvable reference lands in the collected set. -/
theorem rewriteCssUrlsToAbs_spec_witness :
    "https://x.test/b.png" ∈
      (rewriteCssUrlsToAbs envSimple "https://x.test/"
        [CssItem.urlTok "url(b.png)" "b.png"] []).2 :=
  ((rewriteCssUrlsToAbs_spec envSimple "https://x.test/"
      [CssItem.urlTok "url(b.png)" "b.png"] []).2.2.2.2.2 "https://x.test/b.png").mpr
    (Or.inr ⟨"url(b.png)", "b.png", by decide, by decide, by decide⟩)

/-! ## Claim C6 -/

/-- The indexed write-back fold preserves the array length. -/
lemma foldl_set_length {α : Type} (f : Nat → α) :
    ∀ (order : List Nat) (out : List (Option α)),
      (order.foldl (fun o idx => o.set idx (some (f idx))) out).length = out.length := by
  intro order
  induction order with
  | nil => intro out; rfl
  | cons j rest ih =>
    intro out
    rw [List.foldl_cons, ih, List.length_set]

/-- Reading back an in-range index just written. -/
lemma list_getD_set_self {α : Type} (d : α) :
    ∀ (l : List α) (i : Nat) (v : α), i < l.length → (l.set i v).getD i d = v := by
  intro l
  induction l with
  | nil => intro i v h; exact absurd h (Nat.not_lt_zero i)
  | cons x rest ih =>
    intro i v h
    cases i with
    | zero => rfl
    | succ n =>
      have hs : ((x :: rest).set (n + 1) v) = x :: rest.set n v := rfl
      rw [hs, List.getD_cons_succ]
      exact ih n v (Nat.lt_of_succ_lt_succ h)

/-- Writing one index leaves every other index unchanged. -/
lemma list_getD_set_ne {α : Type} (d : α) :
    ∀ (l : List α) (i j : Nat) (v : α), i ≠ j → (l.set i v).getD j d = l.getD j d := by
  intro l
  induction l with
  | nil => intro i j v _; rfl
  | cons x rest ih =>
    intro i j v h
    cases i with
    | zero =>
      cases j with
      | zero => exact absurd rfl h
      | succ m =>
        have hs : ((x :: rest).set 0 v) = v :: rest := rfl
        rw [hs, List.getD_cons_succ, List.getD_cons_succ]
    | succ n =>
      cases j with
      | zero => rfl
      | succ m =>
        have hs : ((x :: rest).set (n + 1) v) = x :: rest.set n v := rfl
        rw [hs, List.getD_cons_succ, List.getD_cons_succ]
        exact ih n m v (fun hnm => h (by rw [hnm]))

/-- After folding the write-backs of every remaining index, a slot holds
the outcome of its own URL as soon as its index is scheduled or the slot
already holds it. -/
lemma downloadRun_aux (http : String → Option HttpResp) (urls : List String) :
    ∀ (order : List Nat) (out : List (Option Outcome)) (i : Nat),
      out.length = urls.length → i < urls.length →
      (i ∈ order ∨ out.getD i none = some (downloadOne http (urls.getD i ""))) →
      (order.foldl
        (fun o idx => o.set idx (some (downloadOne http (urls.getD idx "")))) out).getD i none
        = some (downloadOne http (urls.getD i "")) := by
  intro order
  induction order with
  | nil =>
    intro out i _hlen _hi hcase
    rcases hcase with h | h
    · exact absurd h (List.not_mem_nil i)
    · exact h
  | cons j rest ih =>
    intro out i hlen hi hcase
    rw [List.foldl_cons]
    apply ih _ i (by rw [List.length_set]; exact hlen) hi
    by_cases hij : i = j
    · right
      subst hij
      exact list_getD_set_self none out i _ (by rw [hlen]; exact hi)
    · rcases hcase with hmem | hval
      · rcases List.mem_cons.mp hmem with h0 | h1
        · exact absurd h0 hij
        · left; exact h1
      · right
        rw [list_getD_set_ne none out j i _ (fun hji => hij hji.symm)]
        exact hval

/-- C6: for any completion order that is a permutation of the index range,
the downloader returns one slot per input URL, the slot at each index
holds the outcome of the URL at that same index, and a URL whose binary
fetch fails yields an error outcome (leaving every other slot governed by
its own URL). -/
theorem downloadWithConcurrency_indexed (http : String → Option HttpResp)
    (urls : List String) (order : List Nat)
    (h : order.Perm (List.range urls.length)) :
    (downloadWithConcurrency http urls order).length = urls.length ∧
    (∀ i, i < urls.length →
      (downloadWithConcurrency http urls order).getD i none =
        some (downloadOne http (urls.getD i ""))) ∧
    (∀ u e, fetchBinary http u = .error e →
      downloadOne http u = ⟨false, u, "", "", "", e⟩) := by
  refine ⟨?_, ?_, ?_⟩
  · unfold downloadWithConcurrency
    rw [foldl_set_length (fun idx => downloadOne http (urls.getD idx ""))]
    exact List.length_replicate _ _
  · intro i hi
    unfold downloadWithConcurrency
    apply downloadRun_aux http urls order _ i (List.length_replicate _ _) hi
    left
    rw [h.mem_iff]
    exact List.mem_range.mpr hi
  · intro u e he
    simp [downloadOne, he]

/-- A network where only the first test URL answers. -/
def http6 : String → Option HttpResp := fun u =>
  if u = "https://ok.test/a.png" then some ⟨200, "IMG", none, "image/png"⟩ else none

/-- Witness for C6 at a concrete two-URL batch completed out of order. -/
theorem downloadWithConcurrency_indexed_witness :
    (downloadWithConcurrency http6 ["https://ok.test/a.png", "https://fail.test/b"]
        [1, 0]).getD 0 none =
      some (downloadOne http6 "https://ok.test/a.png") :=
  (downloadWithConcurrency_indexed http6 ["https://ok.test/a.png", "https://fail.test/b"]
      [1, 0] (by decide)).2.1 0 (by decide)

/-! ## Claim C9 -/

/-- C9: when a response is delivered, `fetchHTML` fails exactly when the
status is outside the 2xx range or the body is empty; on success the
returned final URL is the post-redirect response URL (falling back to the
requested URL only when the transport recorded none), and the discovery
stage of the run resolves against exactly that final URL. -/
theorem fetchHTML_status_and_finalUrl (env : Env) (url : String) (r : HttpResp)
    (h : env.http url = some r) :
    ((∃ e, fetchHTML env.http url = .error e) ↔
      (r.status < 200 ∨ 300 ≤ r.status ∨ r.body = "")) ∧
    (∀ page, fetchHTML env.http url = .ok page →
      page.finalUrl = r.responseUrl.getD url ∧ page.html = r.body ∧
      (∀ d, pageDiscovery env url = .ok d → d.base = page.finalUrl)) := by
  have hF : fetchHTML env.http url =
      (if r.status < 200 ∨ 300 ≤ r.status then
        Except.error ("Non-OK HTTP status for " ++ url)
      else if r.body = "" then
        Except.error ("Empty HTML from " ++ r.responseUrl.getD url)
      else Except.ok ⟨r.body, r.responseUrl.getD url, r.contentType⟩) := by
    unfold fetchHTML
    rw [h]
  by_cases h1 : r.status < 200 ∨ 300 ≤ r.status
  · rw [hF]
    simp [h1]
    tauto
  · by_cases h2 : r.body = ""
    · rw [hF]
      simp [h1, h2]
    · constructor
      · rw [hF]
        simp [h1, h2]
      · intro page hp
        rw [hF] at hp
        simp only [h1, if_false, h2, if_false] at hp
        have hpage : page = ⟨r.body, r.responseUrl.getD url, r.contentType⟩ :=
          (Except.ok.inj hp).symm
        subst hpage
        refine ⟨rfl, rfl, ?_⟩
        intro d hd
        unfold pageDiscovery at hd
        rw [hF] at hd
        simp only [h1, if_false, h2, if_false] at hd
        cases hc : collectHtmlAssetUrls env
            (env.parse (FetchedPage.mk r.body (r.responseUrl.getD url) r.contentType).html)
            (FetchedPage.mk r.body (r.responseUrl.getD url) r.contentType).finalUrl with
        | error e =>
          rw [hc] at hd
          exact Except.noConfusion hd
        | ok assets =>
          rw [hc] at hd
          rw [← Except.ok.inj hd]

/-- A network with one page redirecting to a different host. -/
def http9 : String → Option HttpResp := fun u =>
  if u = "https://in.test/" then
    some ⟨200, "<html></html>", some "https://out.test/page/", "text/html"⟩
  else none

/-- Environment around `http9`. -/
def env9 : Env := ⟨resolveSimple, http9, fun _ => [], fun _ => emptyHtmlDoc⟩

/-- Witness for C9: a delivered 200 response with a redirect is not an
error, by the failure characterization of the theorem. -/
theorem fetchHTML_status_and_finalUrl_witness :
    ¬ ∃ e, fetchHTML env9.http "https://in.test/" = .error e := by
  intro he
  have h := (fetchHTML_status_and_finalUrl env9 "https://in.test/"
    ⟨200, "<html></html>", some "https://out.test/page/", "text/html"⟩ rfl).1.mp he
  rcases h with h | h | h
  · exact absurd h (by decide)
  · exact absurd h (by decide)
  · exact absurd h (by decide)

/-! ## Claim C4 -/

/-- The import targets a tag list schedules for fetching, in order. -/
def tagAbs : List ImportTag → List String
  | [] => []
  | .fetchIt a :: ts => a :: tagAbs ts
  | .keep _ :: ts => tagAbs ts
  | .skip _ :: ts => tagAbs ts

/-- The scan phase only grows the visited set, schedules each target at
most once, and schedules only targets that were not yet visited (each of
which it adds to the visited set). -/
lemma markImports_spec (env : Env) (cssUrl : String) :
    ∀ (doc : CssDoc) (vis : List String),
      (∀ u ∈ vis, u ∈ (markImports env cssUrl doc vis).2) ∧
      (tagAbs (markImports env cssUrl doc vis).1).Nodup ∧
      (∀ a ∈ tagAbs (markImports env cssUrl doc vis).1,
        a ∈ (markImports env cssUrl doc vis).2 ∧ a ∉ vis) := by
  intro doc
  induction doc with
  | nil =>
    intro vis
    exact ⟨fun u hu => hu, List.nodup_nil, fun a ha => absurd ha (List.not_mem_nil a)⟩
  | cons item rest ih =>
    intro vis
    cases item with
    | plain s => simpa [markImports, tagAbs] using ih vis
    | urlTok raw ref => simpa [markImports, tagAbs] using ih vis
    | importRule raw href =>
      cases hres : env.resolve href cssUrl with
      | none => simpa [markImports, hres, tagAbs] using ih vis
      | some abs =>
        by_cases hv : abs ∈ vis
        · simpa [markImports, hres, hv, tagAbs] using ih vis
        · have IH := ih (vis ++ [abs])
          simp only [markImports, hres, hv, if_false, tagAbs]
          refine ⟨?_, ?_, ?_⟩
          · intro u hu
            exact IH.1 u (List.mem_append_left _ hu)
          · refine List.nodup_cons.mpr ⟨?_, IH.2.1⟩
            intro hmem
            exact (IH.2.2 abs hmem).2
              (List.mem_append_right _ (List.mem_singleton.mpr rfl))
          · intro a ha
            rcases List.mem_cons.mp ha with h0 | h1
            · subst h0
              exact ⟨IH.1 a (List.mem_append_right _ (List.mem_singleton.mpr rfl)), hv⟩
            · have ha' := IH.2.2 a h1
              exact ⟨ha'.1, fun hvv => ha'.2 (List.mem_append_left _ hvv)⟩

/-- The invariant of one full inlining call: the visited set only grows,
and the import URLs fetched during the call are pairwise distinct, were
none of them visited at entry, and are all visited on exit. -/
def InlineInv (s t : InlineSt) : Prop :=
  (∀ u ∈ s.visited, u ∈ t.visited) ∧
  ∃ Δ, t.fetched = s.fetched ++ Δ ∧ Δ.Nodup ∧
    (∀ u ∈ Δ, u ∉ s.visited) ∧ (∀ u ∈ Δ, u ∈ t.visited)

/-- The dynamic phase preserves the invariant: relative to the visited set
`vis0` from before the scan phase, every URL it fetches is either one of
its scheduled targets (already marked visited by the scan) or a URL first
fetched inside a recursive call, and the combined request log stays
duplicate-free and disjoint from `vis0`. -/
lemma runImports_inv (env : Env)
    (recur : CssDoc → String → InlineSt → CssDoc × InlineSt)
    (hrec : ∀ b u s, InlineInv s (recur b u s).2) (vis0 : List String) :
    ∀ (ts : List ImportTag) (st : InlineSt),
      (∀ a ∈ tagAbs ts, a ∈ st.visited ∧ a ∉ vis0) →
      (tagAbs ts).Nodup →
      (∀ u ∈ vis0, u ∈ st.visited) →
      (∀ u ∈ st.visited, u ∈ (runImports env recur ts st).2.visited) ∧
      ∃ Δ, (runImports env recur ts st).2.fetched = st.fetched ++ Δ ∧ Δ.Nodup ∧
        (∀ u ∈ Δ, u ∉ vis0) ∧
        (∀ u ∈ Δ, u ∈ tagAbs ts ∨ u ∉ st.visited) ∧
        (∀ u ∈ Δ, u ∈ (runImports env recur ts st).2.visited) := by
  intro ts
  induction ts with
  | nil =>
    intro st _h1 _h2 _h3
    exact ⟨fun u hu => hu, [], by simp [runImports], List.nodup_nil, by simp, by simp, by simp⟩
  | cons t ts ih =>
    intro st h1 h2 h3
    cases t with
    | keep item => exact ih st h1 h2 h3
    | skip c => exact ih st h1 h2 h3
    | fetchIt abs =>
      have habs := h1 abs (by simp [tagAbs])
      have hnodups := List.nodup_cons.mp (show (abs :: tagAbs ts).Nodup from h2)
      cases hfetch : fetchText env.http abs with
      | error e =>
        simp only [runImports, hfetch]
        have IH := ih (⟨st.visited, st.assets, st.fetched ++ [abs]⟩ : InlineSt)
          (fun a ha => h1 a (List.mem_cons_of_mem _ ha)) hnodups.2 h3
        obtain ⟨mono, Δ', hfe, hnd, hnv0, htag, hvf⟩ := IH
        refine ⟨mono, abs :: Δ', ?_, ?_, ?_, ?_, ?_⟩
        · rw [hfe]
          simp
        · refine List.nodup_cons.mpr ⟨?_, hnd⟩
          intro hmem
          rcases htag abs hmem with hA | hB
          · exact hnodups.1 hA
          · exact hB habs.1
        · intro u hu
          rcases List.mem_cons.mp hu with h0 | h0
          · exact h0 ▸ habs.2
          · exact hnv0 u h0
        · intro u hu
          rcases List.mem_cons.mp hu with h0 | h0
          · exact Or.inl (h0 ▸ List.mem_cons_self _ _)
          · rcases htag u h0 with hA | hB
            · exact Or.inl (List.mem_cons_of_mem _ hA)
            · exact Or.inr hB
        · intro u hu
          rcases List.mem_cons.mp hu with h0 | h0
          · exact h0 ▸ mono abs habs.1
          · exact hvf u h0
      | ok v =>
        obtain ⟨text, finalUrl, ct⟩ := v
        simp only [runImports, hfetch]
        obtain ⟨rmono, Δr, rfe, rnd, rnv, rvis⟩ :=
          hrec (rewriteCssUrlsToAbs env finalUrl (env.cssBody text) st.assets).1 finalUrl
            (⟨st.visited, (rewriteCssUrlsToAbs env finalUrl (env.cssBody text) st.assets).2,
              st.fetched ++ [abs]⟩ : InlineSt)
        have IH := ih
          (recur (rewriteCssUrlsToAbs env finalUrl (env.cssBody text) st.assets).1 finalUrl
            (⟨st.visited, (rewriteCssUrlsToAbs env finalUrl (env.cssBody text) st.assets).2,
              st.fetched ++ [abs]⟩ : InlineSt)).2
          (fun a ha => ⟨rmono a (h1 a (List.mem_cons_of_mem _ ha)).1,
            (h1 a (List.mem_cons_of_mem _ ha)).2⟩)
          hnodups.2
          (fun u hu => rmono u (h3 u hu))
        obtain ⟨mono, Δ'', hfe, hnd, hnv0, htag, hvf⟩ := IH
        refine ⟨fun u hu => mono u (rmono u hu), abs :: (Δr ++ Δ''), ?_, ?_, ?_, ?_, ?_⟩
        · rw [hfe, rfe]
          simp
        · refine List.nodup_cons.mpr ⟨?_, ?_⟩
          · intro hmem
            rcases List.mem_append.mp hmem with hA | hB
            · exact rnv abs hA habs.1
            · rcases htag abs hB with hT | hV
              · exact hnodups.1 hT
              · exact hV (rmono abs habs.1)
          · refine List.nodup_append.mpr ⟨rnd, hnd, ?_⟩
            intro u huR huD
            rcases htag u huD with hT | hV
            · exact rnv u huR (h1 u (List.mem_cons_of_mem _ hT)).1
            · exact hV (rvis u huR)
        · intro u hu
          rcases List.mem_cons.mp hu with h0 | h0
          · exact h0 ▸ habs.2
          · rcases List.mem_append.mp h0 with hA | hB
            · exact fun hv => rnv u hA (h3 u hv)
            · exact hnv0 u hB
        · intro u hu
          rcases List.mem_cons.mp hu with h0 | h0
          · exact Or.inl (h0 ▸ List.mem_cons_self _ _)
          · rcases List.mem_append.mp h0 with hA | hB
            · exact Or.inr (rnv u hA)
            · rcases htag u hB with hT | hV
              · exact Or.inl (List.mem_cons_of_mem _ hT)
              · exact Or.inr (fun hv => hV (rmono u hv))
        · intro u hu
          rcases List.mem_cons.mp hu with h0 | h0
          · exact h0 ▸ mono abs (rmono abs habs.1)
          · rcases List.mem_append.mp h0 with hA | hB
            · exact mono u (rvis u hA)
            · exact hvf u hB

/-- The full inlining call satisfies the invariant: visited only grows, and
the import URLs it fetches are distinct, none of them visited at entry. -/
lemma inlineCssImports_inv (env : Env) :
    ∀ (depth : Nat) (doc : CssDoc) (cssUrl : String) (st : InlineSt),
      InlineInv st (inlineCssImports env depth doc cssUrl st).2 := by
  intro depth
  induction depth with
  | zero =>
    intro doc cssUrl st
    exact ⟨fun u hu => hu, [], by simp [inlineCssImports], List.nodup_nil, by simp, by simp⟩
  | succ d ihd =>
    intro doc cssUrl st
    have hmark := markImports_spec env cssUrl doc st.visited
    have hrun := runImports_inv env (fun b u s => inlineCssImports env d b u s)
      (fun b u s => ihd b u s) st.visited (markImports env cssUrl doc st.visited).1
      (⟨(markImports env cssUrl doc st.visited).2, st.assets, st.fetched⟩ : InlineSt)
      (fun a ha => ⟨(hmark.2.2 a ha).1, (hmark.2.2 a ha).2⟩)
      hmark.2.1
      (fun u hu => hmark.1 u hu)
    have hred : inlineCssImports env (d + 1) doc cssUrl st =
        runImports env (fun b u s => inlineCssImports env d b u s)
          (markImports env cssUrl doc st.visited).1
          (⟨(markImports env cssUrl doc st.visited).2, st.assets, st.fetched⟩ : InlineSt) := by
      show runImports env (fun b u s => inlineCssImports env d b u s)
          (markImports env cssUrl doc st.visited).1
          { st with visited := (markImports env cssUrl doc st.visited).2 } = _
      rfl
    rw [hred]
    obtain ⟨mono, Δ, hfe, hnd, hnv0, _htag, hvf⟩ := hrun
    exact ⟨fun u hu => mono u (hmark.1 u hu), Δ, hfe, hnd, hnv0, hvf⟩

/-- C4: the visited guard — in any run of import inlining the import URLs
handed to the network are pairwise distinct and none was in the visited
set at entry; and in the concrete self-import scenario the second
occurrence of the target is replaced by the skipped-visited diagnostic
comment while the stylesheet is fetched as an import exactly once, the
recursion terminating (the model is a total function). -/
theorem inlineCssImports_visited_guard :
    (∀ (env : Env) (depth : Nat) (doc : CssDoc) (cssUrl : String)
      (vis assets : List String),
      ((inlineCssImports env depth doc cssUrl ⟨vis, assets, []⟩).2.fetched).Nodup ∧
      ∀ u ∈ (inlineCssImports env depth doc cssUrl ⟨vis, assets, []⟩).2.fetched,
        u ∉ vis) ∧
    CssItem.plain "/* @import skipped (visited): https://x.test/a.css */" ∈
      (inlineCssImports envSelf 2 (envSelf.cssBody "A") "https://x.test/a.css"
        ⟨[], [], []⟩).1 ∧
    (inlineCssImports envSelf 2 (envSelf.cssBody "A") "https://x.test/a.css"
        ⟨[], [], []⟩).2.fetched = ["https://x.test/a.css"] := by
  refine ⟨?_, by decide, by decide⟩
  intro env depth doc cssUrl vis assets
  obtain ⟨_mono, Δ, hfe, hnd, hnv, _hvf⟩ :=
    inlineCssImports_inv env depth doc cssUrl ⟨vis, assets, []⟩
  constructor
  · rw [hfe]
    simpa using hnd
  · intro u hu
    rw [hfe] at hu
    simp only [List.nil_append] at hu
    exact hnv u hu

/-- Witness for C4: the request log of the concrete self-import run is
duplicate-free, by the general part of the theorem. -/
theorem inlineCssImports_visited_guard_witness :
    ((inlineCssImports envSelf 2 (envSelf.cssBody "A") "https://x.test/a.css"
        ⟨[], [], []⟩).2.fetched).Nodup :=
  (inlineCssImports_visited_guard.1 envSelf 2 (envSelf.cssBody "A")
    "https://x.test/a.css" [] []).1

end CloneSite
